import Mathlib

/-!
Shallow embedding of fizz's encrypted TLS record layer
(`fizz/record/EncryptedRecordLayer.cpp`): `EncryptedReadRecordLayer::getDecryptedBuf`,
`EncryptedReadRecordLayer::read` and `EncryptedWriteRecordLayer::write`.

Bytes are modelled as `Nat` (wire bytes are `< 256`; the 16-bit length field is
assembled from two bytes), byte buffers as `List Nat`, and the AEAD collaborator
as an abstract structure of pure functions.  Exceptions thrown by the C++ code
become a `fatal` result constructor carrying the error kind; the state (sequence
number, skip flag) and the unconsumed accumulator at the moment of the throw are
returned alongside.
-/

namespace Fizz

/-- Size of the encrypted record header:
`sizeof(ContentType) + sizeof(ProtocolVersion) + sizeof(uint16_t)` = 1 + 2 + 2. -/
def kEncryptedHeaderSize : Nat := 1 + 2 + 2

/-- Modelled from the spec: the fixed maximum allowed value of the 16-bit
ciphertext length field (`kMaxEncryptedRecordSize`, declared outside this
translation unit; the fizz value is 2^14 + 256). -/
def kMaxEncryptedRecordSize : Nat := 16384 + 256

/-- Modelled from the spec: the default maximum plaintext chunk drawn per record
(`kMaxPlaintextRecordSize` = 2^14, the default of `maxRecord_`). -/
def kMaxPlaintextRecordSize : Nat := 16384

/-- Largest value of a `uint64_t` sequence number,
`std::numeric_limits<uint64_t>::max()`. -/
def uint64Max : Nat := 2 ^ 64 - 1

/-- Modelled from the spec: wire value of `ContentType::handshake` (0x16). -/
def contentTypeHandshake : Nat := 22

/-- Modelled from the spec: wire value of `ContentType::alert` (0x15). -/
def contentTypeAlert : Nat := 21

/-- Modelled from the spec: wire value of `ContentType::application_data` (0x17),
the outer tag of every encrypted record. -/
def contentTypeApplicationData : Nat := 23

/-- Modelled from the spec: wire value of `ContentType::change_cipher_spec`
(0x14), the legacy filler record tag whose parse sets `continueReading`. -/
def contentTypeChangeCipherSpec : Nat := 20

/-- Modelled from the spec: wire value of `ProtocolVersion::tls_1_2` (0x0303),
a 16-bit quantity written big-endian into the header. -/
def tls_1_2 : Nat := 771

/-- Error kinds for the exceptions thrown by the record layer.  `outOfFuel`
is an artifact of the fuel-bounded loop encoding and is unreachable whenever
the fuel is at least the accumulator length (read) or the padding policy
consumes at least one byte per record (write). -/
inductive RecordError where
  | oversizedRecord
  | sequenceExhausted
  | authenticationFailed
  | noContentTypeFound
  | unexpectedContentType (t : Nat)
  | emptyFragment
  | outOfFuel
  deriving DecidableEq, Repr

/-- Result of a read-side call: `absent` is `ReadResult::noneWithSizeHint`,
`present` is `ReadResult::from`, and `fatal` models a thrown exception. -/
inductive ReadResult (α : Type) where
  | absent (sizeHint : Nat)
  | present (v : α)
  | fatal (e : RecordError)
  deriving DecidableEq, Repr

/-- Abstract AEAD collaborator.  `decrypt` returning `none` models both a
`tryDecrypt` miss and a throwing `decrypt`; the caller decides which. -/
structure Aead where
  encrypt : List Nat → Option (List Nat) → Nat → List Nat
  decrypt : List Nat → Option (List Nat) → Nat → Option (List Nat)
  cipherOverhead : Nat

/-- Modelled from the spec: the external buffer-and-padding policy consulted by
`prepareBufferWithPadding`; it chooses how many payload bytes to draw from the
queue for the next record and how many zero padding bytes to append. -/
structure PaddingPolicy where
  chunkLen : List Nat → Nat
  padLen : List Nat → Nat

/-- Mutable state of `EncryptedReadRecordLayer`: the read sequence number and
the one-shot skip-failed-decryption flag. -/
structure ReadState where
  seqNum : Nat
  skipFailedDecryption : Bool
  deriving DecidableEq, Repr

/-- A typed message: inner content type and payload bytes. -/
structure TLSMessage where
  type : Nat
  fragment : List Nat
  deriving DecidableEq, Repr

/-- Result of a write call: wire bytes, the original content type, and the
encryption level of the layer. -/
structure TLSContent where
  data : List Nat
  contentType : Nat
  encryptionLevel : Nat
  deriving DecidableEq, Repr

/-- The 16-bit big-endian length field read from a record header at offsets 3
and 4 (after the 1-byte content type and 2-byte protocol version). -/
def parseLen (buf : List Nat) : Nat :=
  buf.getD 3 0 * 256 + buf.getD 4 0

/-- Associated data handed to the AEAD: the header bytes when
`useAdditionalData_` is set, nothing otherwise. -/
def mkAad (useAD : Bool) (header : List Nat) : Option (List Nat) :=
  if useAD then Option.some header else Option.none

/-- Loop body of `EncryptedReadRecordLayer::getDecryptedBuf`, fuel-bounded.
Each pass: header-deficit hint, oversize check on the declared length,
record-deficit hint, then consume the record (`parseEncryptedRecord`, modelled
from the spec as splitting off header and ciphertext and flagging a
change_cipher_spec filler), skip fillers, check sequence exhaustion, and
decrypt in normal or skip-failed mode. -/
def readLoop (aead : Aead) (useAD : Bool) :
    Nat → ReadState → List Nat → ReadResult (List Nat) × ReadState × List Nat
  | fuel, st, buf =>
    if buf.length < kEncryptedHeaderSize then
      (.absent (kEncryptedHeaderSize - buf.length), st, buf)
    else
      let len := parseLen buf
      if kMaxEncryptedRecordSize < len then
        (.fatal .oversizedRecord, st, buf)
      else if buf.length < kEncryptedHeaderSize + len then
        (.absent (kEncryptedHeaderSize + len - buf.length), st, buf)
      else
        match fuel with
        | 0 => (.fatal .outOfFuel, st, buf)
        | fuel + 1 =>
          let header := buf.take kEncryptedHeaderSize
          let ciphertext := (buf.drop kEncryptedHeaderSize).take len
          let rest := buf.drop (kEncryptedHeaderSize + len)
          if buf.getD 0 0 = contentTypeChangeCipherSpec then
            readLoop aead useAD fuel st rest
          else if st.seqNum = uint64Max then
            (.fatal .sequenceExhausted, st, rest)
          else if st.skipFailedDecryption then
            match aead.decrypt ciphertext (mkAad useAD header) st.seqNum with
            | Option.some pt => (.present pt, ⟨st.seqNum + 1, false⟩, rest)
            | Option.none => readLoop aead useAD fuel st rest
          else
            match aead.decrypt ciphertext (mkAad useAD header) st.seqNum with
            | Option.some pt =>
                (.present pt, ⟨st.seqNum + 1, st.skipFailedDecryption⟩, rest)
            | Option.none =>
                (.fatal .authenticationFailed,
                  ⟨st.seqNum + 1, st.skipFailedDecryption⟩, rest)

/-- Function `EncryptedReadRecordLayer::getDecryptedBuf`.  Each loop pass that
recurses consumes at least `kEncryptedHeaderSize` bytes, so `buf.length` fuel
always suffices. -/
def getDecryptedBuf (aead : Aead) (useAD : Bool) (st : ReadState)
    (buf : List Nat) : ReadResult (List Nat) × ReadState × List Nat :=
  readLoop aead useAD buf.length st buf

/-- Modelled from the spec: `RecordLayerUtils::parseAndRemoveContentType`
strips the trailing zero padding of a decrypted record and reads the last
non-zero byte as the inner content type, failing when no non-zero byte exists. -/
def parseAndRemoveContentType (buf : List Nat) : Option (Nat × List Nat) :=
  match buf.reverse.dropWhile (fun b => b == 0) with
  | [] => Option.none
  | ct :: rest => Option.some (ct, rest.reverse)

/-- Function `EncryptedReadRecordLayer::read`: pulls a decrypted buffer,
recovers the inner content type, validates it against the three permitted
values, and substitutes an explicit empty fragment for empty
`application_data` while rejecting other empty fragments. -/
def read (aead : Aead) (useAD : Bool) (st : ReadState) (buf : List Nat) :
    ReadResult TLSMessage × ReadState × List Nat :=
  match getDecryptedBuf aead useAD st buf with
  | (.absent hint, st', buf') => (.absent hint, st', buf')
  | (.fatal e, st', buf') => (.fatal e, st', buf')
  | (.present pt, st', buf') =>
    match parseAndRemoveContentType pt with
    | Option.none => (.fatal .noContentTypeFound, st', buf')
    | Option.some (ct, frag) =>
      if ct = contentTypeHandshake ∨ ct = contentTypeAlert ∨
          ct = contentTypeApplicationData then
        if frag.isEmpty then
          if ct = contentTypeApplicationData then
            (.present ⟨ct, []⟩, st', buf')
          else
            (.fatal .emptyFragment, st', buf')
        else
          (.present ⟨ct, frag⟩, st', buf')
      else
        (.fatal (.unexpectedContentType ct), st', buf')

/-- Repeated reads against one accumulator, collecting the messages delivered
until the first non-`present` outcome; fuel-bounded. -/
def readAllLoop (aead : Aead) (useAD : Bool) :
    Nat → ReadState → List Nat → List TLSMessage × ReadState × List Nat
  | 0, st, buf => ([], st, buf)
  | fuel + 1, st, buf =>
    match read aead useAD st buf with
    | (.present m, st', buf') =>
      let r := readAllLoop aead useAD fuel st' buf'
      (m :: r.1, r.2)
    | (_, st', buf') => ([], st', buf')

/-- Drains one accumulator through repeated `read` calls.  Every delivered
message consumes at least one byte, so `buf.length + 1` fuel suffices. -/
def readAll (aead : Aead) (useAD : Bool) (st : ReadState) (buf : List Nat) :
    List TLSMessage × ReadState × List Nat :=
  readAllLoop aead useAD (buf.length + 1) st buf

/-- The 5-byte record header built by `EncryptedWriteRecordLayer::write`:
outer content type `application_data`, big-endian `ProtocolVersion::tls_1_2`,
and the big-endian ciphertext length truncated to 16 bits
(`appender.writeBE<uint16_t>`). -/
def mkHeader (clen : Nat) : List Nat :=
  [contentTypeApplicationData, tls_1_2 / 256, tls_1_2 % 256,
    clen / 256 % 256, clen % 256]

/-- Modelled from the spec: `prepareBufferWithPadding` draws the policy's
chunk of payload bytes from the queue and appends the true content type byte
followed by the policy's zero padding bytes. -/
def prepareBufferWithPadding (policy : PaddingPolicy) (msgType : Nat)
    (queue : List Nat) : List Nat :=
  queue.take (policy.chunkLen queue) ++ [msgType] ++
    List.replicate (policy.padLen queue) 0

/-- One wire record as assembled by one pass of the write loop: the 5-byte
header (whose length field is the prepared buffer's length plus the cipher
overhead) followed by the AEAD ciphertext of the prepared buffer
(`RecordLayerUtils::writeEncryptedRecord`, modelled from the spec as
header-then-ciphertext). -/
def mkRecord (aead : Aead) (useAD : Bool) (policy : PaddingPolicy)
    (msgType : Nat) (queue : List Nat) (seqNum : Nat) : List Nat :=
  let dataBuf := prepareBufferWithPadding policy msgType queue
  let clen := dataBuf.length + aead.cipherOverhead
  mkHeader clen ++ aead.encrypt dataBuf (mkAad useAD (mkHeader clen)) seqNum

/-- Loop body of `EncryptedWriteRecordLayer::write`, fuel-bounded, returning
the emitted records in order together with the final write sequence number.
Each pass: sequence-exhaustion check, then `prepareBufferWithPadding`, header
construction, encryption, and chaining of the produced record. -/
def writeLoop (aead : Aead) (useAD : Bool) (policy : PaddingPolicy)
    (msgType : Nat) :
    Nat → Nat → List Nat → Except RecordError (List (List Nat) × Nat)
  | _, seqNum, [] => .ok ([], seqNum)
  | 0, _, _ :: _ => .error .outOfFuel
  | fuel + 1, seqNum, q₀ :: q =>
    if seqNum = uint64Max then
      .error .sequenceExhausted
    else
      match writeLoop aead useAD policy msgType fuel (seqNum + 1)
          ((q₀ :: q).drop (policy.chunkLen (q₀ :: q))) with
      | .error e => .error e
      | .ok (records, seqNum') =>
        .ok (mkRecord aead useAD policy msgType (q₀ :: q) seqNum :: records,
          seqNum')

/-- Function `EncryptedWriteRecordLayer::write`: runs the record loop over the
message payload and returns the concatenated wire records together with the
original content type and the layer's encryption level.  The payload length
bounds the number of records whenever the policy draws at least one byte per
record, so it suffices as fuel. -/
def write (aead : Aead) (useAD : Bool) (policy : PaddingPolicy)
    (encryptionLevel : Nat) (msg : TLSMessage) (seqNum : Nat) :
    Except RecordError (TLSContent × Nat) :=
  match writeLoop aead useAD policy msg.type msg.fragment.length seqNum
      msg.fragment with
  | .error e => .error e
  | .ok (records, seqNum') =>
    .ok (⟨records.flatten, msg.type, encryptionLevel⟩, seqNum')

/-- Modelled from the spec: the default buffer-and-padding policy draws up to
`maxRecord` payload bytes per record and adds no padding. -/
def noPaddingPolicy (maxRecord : Nat) : PaddingPolicy where
  chunkLen queue := min queue.length maxRecord
  padLen _ := 0

/-- A toy AEAD used as the concrete collaborator in witnesses: encryption
appends the marker byte 7, decryption strips it when present. -/
def toyAead : Aead where
  encrypt pt _ _ := pt ++ [7]
  decrypt ct _ _ :=
    if ct.getLast? = Option.some 7 then Option.some ct.dropLast else Option.none
  cipherOverhead := 1

/-- A padding policy that requests a very large amount of padding for every
record, exercising the writer with a policy output beyond the record-size
maximum. -/
def hugePaddingPolicy : PaddingPolicy where
  chunkLen queue := queue.length
  padLen _ := 16640

/-- The 16-bit length fields of the records in a write-loop result, for
inspecting emitted headers. -/
def recordLenFields (res : Except RecordError (List (List Nat) × Nat)) :
    List Nat :=
  match res with
  | .error _ => []
  | .ok (records, _) => records.map parseLen

/-- The size hint of a read outcome, zero when no hint was produced. -/
def sizeHintOf (r : ReadResult TLSMessage × ReadState × List Nat) : Nat :=
  match r.1 with
  | .absent k => k
  | _ => 0

section ReadLemmas

/-- Splitting a 16-bit value into the two header bytes and reassembling it is
the identity below 2^16. -/
theorem parseLen_split (n : Nat) (h : n < 65536) :
    n / 256 % 256 * 256 + n % 256 = n := by
  omega

/-- Fuel irrelevance for the read loop: any fuel of at least the accumulator
length yields the same result, since every pass consumes at least a header's
worth of bytes. -/
theorem readLoop_congr (aead : Aead) (useAD : Bool) (n : Nat) :
    ∀ (f g : Nat) (st : ReadState) (buf : List Nat),
      buf.length ≤ n → buf.length ≤ f → buf.length ≤ g →
      readLoop aead useAD f st buf = readLoop aead useAD g st buf := by
  induction n with
  | zero =>
    intro f g st buf hn _ _
    have hb : buf.length < kEncryptedHeaderSize := by
      simp only [kEncryptedHeaderSize]; omega
    rw [readLoop, readLoop, if_pos hb, if_pos hb]
  | succ n ih =>
    intro f g st buf hn hf hg
    by_cases hb : buf.length < kEncryptedHeaderSize
    · rw [readLoop, readLoop, if_pos hb, if_pos hb]
    · rw [readLoop, readLoop, if_neg hb, if_neg hb]
      by_cases hov : kMaxEncryptedRecordSize < parseLen buf
      · simp only [if_pos hov]
      · simp only [if_neg hov]
        by_cases hfull : buf.length < kEncryptedHeaderSize + parseLen buf
        · simp only [if_pos hfull]
        · simp only [if_neg hfull]
          have h5 : 5 ≤ buf.length := by
            simp only [kEncryptedHeaderSize] at hb; omega
          obtain ⟨f', rfl⟩ : ∃ f', f = f' + 1 := ⟨f - 1, by omega⟩
          obtain ⟨g', rfl⟩ : ∃ g', g = g' + 1 := ⟨g - 1, by omega⟩
          have hrest :
              (buf.drop (kEncryptedHeaderSize + parseLen buf)).length ≤ n := by
            simp only [List.length_drop, kEncryptedHeaderSize]
            omega
          have hrec := ih f' g' st
            (buf.drop (kEncryptedHeaderSize + parseLen buf)) hrest
            (by simp only [List.length_drop, kEncryptedHeaderSize] at hrest ⊢
                omega)
            (by simp only [List.length_drop, kEncryptedHeaderSize] at hrest ⊢
                omega)
          simp only [hrec]

/-- One pass of the read loop over an accumulator that starts with a complete
record: five header bytes whose length field matches the ciphertext length. -/
theorem readLoop_complete (aead : Aead) (useAD : Bool) (f : Nat)
    (st : ReadState) (t v1 v2 hi lo : Nat) (ct rest : List Nat)
    (hlen : hi * 256 + lo = ct.length)
    (hmax : ct.length ≤ kMaxEncryptedRecordSize) :
    readLoop aead useAD (f + 1) st (t :: v1 :: v2 :: hi :: lo :: (ct ++ rest)) =
      if t = contentTypeChangeCipherSpec then
        readLoop aead useAD f st rest
      else if st.seqNum = uint64Max then
        (.fatal .sequenceExhausted, st, rest)
      else if st.skipFailedDecryption then
        match aead.decrypt ct (mkAad useAD [t, v1, v2, hi, lo]) st.seqNum with
        | Option.some pt => (.present pt, ⟨st.seqNum + 1, false⟩, rest)
        | Option.none => readLoop aead useAD f st rest
      else
        match aead.decrypt ct (mkAad useAD [t, v1, v2, hi, lo]) st.seqNum with
        | Option.some pt =>
            (.present pt, ⟨st.seqNum + 1, st.skipFailedDecryption⟩, rest)
        | Option.none =>
            (.fatal .authenticationFailed,
              ⟨st.seqNum + 1, st.skipFailedDecryption⟩, rest) := by
  have e1 : parseLen (t :: v1 :: v2 :: hi :: lo :: (ct ++ rest)) =
      hi * 256 + lo := rfl
  have hb : ¬ (t :: v1 :: v2 :: hi :: lo :: (ct ++ rest)).length <
      kEncryptedHeaderSize := by
    simp only [kEncryptedHeaderSize, List.length_cons]; omega
  have hov : ¬ kMaxEncryptedRecordSize <
      parseLen (t :: v1 :: v2 :: hi :: lo :: (ct ++ rest)) := by
    rw [e1, hlen]; omega
  have hfull : ¬ (t :: v1 :: v2 :: hi :: lo :: (ct ++ rest)).length <
      kEncryptedHeaderSize + parseLen (t :: v1 :: v2 :: hi :: lo :: (ct ++ rest)) := by
    rw [e1, hlen]
    simp only [kEncryptedHeaderSize, List.length_cons, List.length_append]
    omega
  rw [readLoop, if_neg hb]
  simp only [if_neg hov, if_neg hfull]
  have etake : (t :: v1 :: v2 :: hi :: lo :: (ct ++ rest)).take
      kEncryptedHeaderSize = [t, v1, v2, hi, lo] := rfl
  have edrop : (t :: v1 :: v2 :: hi :: lo :: (ct ++ rest)).drop
      kEncryptedHeaderSize = ct ++ rest := rfl
  have ect : ((t :: v1 :: v2 :: hi :: lo :: (ct ++ rest)).drop
      kEncryptedHeaderSize).take
        (parseLen (t :: v1 :: v2 :: hi :: lo :: (ct ++ rest))) = ct := by
    rw [edrop, e1, hlen, List.take_left]
  have erest : (t :: v1 :: v2 :: hi :: lo :: (ct ++ rest)).drop
      (kEncryptedHeaderSize + parseLen (t :: v1 :: v2 :: hi :: lo :: (ct ++ rest)))
      = rest := by
    rw [e1, hlen, ← List.drop_drop, edrop, List.drop_left]
  rw [etake, ect, erest]
  rfl

/-- A header-shaped prefix: the first five bytes of a record. -/
theorem getDecryptedBuf_complete (aead : Aead) (useAD : Bool)
    (st : ReadState) (t v1 v2 hi lo : Nat) (ct rest : List Nat)
    (hlen : hi * 256 + lo = ct.length)
    (hmax : ct.length ≤ kMaxEncryptedRecordSize) :
    getDecryptedBuf aead useAD st (t :: v1 :: v2 :: hi :: lo :: (ct ++ rest)) =
      if t = contentTypeChangeCipherSpec then
        getDecryptedBuf aead useAD st rest
      else if st.seqNum = uint64Max then
        (.fatal .sequenceExhausted, st, rest)
      else if st.skipFailedDecryption then
        match aead.decrypt ct (mkAad useAD [t, v1, v2, hi, lo]) st.seqNum with
        | Option.some pt => (.present pt, ⟨st.seqNum + 1, false⟩, rest)
        | Option.none => getDecryptedBuf aead useAD st rest
      else
        match aead.decrypt ct (mkAad useAD [t, v1, v2, hi, lo]) st.seqNum with
        | Option.some pt =>
            (.present pt, ⟨st.seqNum + 1, st.skipFailedDecryption⟩, rest)
        | Option.none =>
            (.fatal .authenticationFailed,
              ⟨st.seqNum + 1, st.skipFailedDecryption⟩, rest) := by
  have hL : (t :: v1 :: v2 :: hi :: lo :: (ct ++ rest)).length =
      (4 + ct.length + rest.length) + 1 := by
    simp only [List.length_cons, List.length_append]; omega
  have hcongr : readLoop aead useAD (4 + ct.length + rest.length) st rest =
      readLoop aead useAD rest.length st rest :=
    readLoop_congr aead useAD rest.length _ _ st rest le_rfl (by omega) le_rfl
  unfold getDecryptedBuf
  rw [hL, readLoop_complete aead useAD _ st t v1 v2 hi lo ct rest hlen hmax,
    hcongr]

/-- Fewer than header-size bytes: the loop reports the header deficit and
leaves state and accumulator untouched. -/
theorem getDecryptedBuf_short (aead : Aead) (useAD : Bool) (st : ReadState)
    (buf : List Nat) (h : buf.length < kEncryptedHeaderSize) :
    getDecryptedBuf aead useAD st buf =
      (.absent (kEncryptedHeaderSize - buf.length), st, buf) := by
  unfold getDecryptedBuf
  rw [readLoop, if_pos h]

/-- Oversized declared length: fatal error, state and accumulator untouched. -/
theorem getDecryptedBuf_oversized (aead : Aead) (useAD : Bool) (st : ReadState)
    (buf : List Nat) (h : ¬ buf.length < kEncryptedHeaderSize)
    (hov : kMaxEncryptedRecordSize < parseLen buf) :
    getDecryptedBuf aead useAD st buf = (.fatal .oversizedRecord, st, buf) := by
  unfold getDecryptedBuf
  rw [readLoop, if_neg h]
  simp only [if_pos hov]

/-- Header present but record incomplete: the loop reports the remaining
deficit and leaves state and accumulator untouched. -/
theorem getDecryptedBuf_incomplete (aead : Aead) (useAD : Bool)
    (st : ReadState) (buf : List Nat)
    (h : ¬ buf.length < kEncryptedHeaderSize)
    (hov : ¬ kMaxEncryptedRecordSize < parseLen buf)
    (hfull : buf.length < kEncryptedHeaderSize + parseLen buf) :
    getDecryptedBuf aead useAD st buf =
      (.absent (kEncryptedHeaderSize + parseLen buf - buf.length), st, buf) := by
  unfold getDecryptedBuf
  rw [readLoop, if_neg h]
  simp only [if_neg hov, if_pos hfull]

/-- A change_cipher_spec filler record is consumed and the loop restarts with
unchanged state. -/
theorem getDecryptedBuf_ccs (aead : Aead) (useAD : Bool) (st : ReadState)
    (v1 v2 hi lo : Nat) (ct rest : List Nat)
    (hlen : hi * 256 + lo = ct.length)
    (hmax : ct.length ≤ kMaxEncryptedRecordSize) :
    getDecryptedBuf aead useAD st
        (contentTypeChangeCipherSpec :: v1 :: v2 :: hi :: lo :: (ct ++ rest)) =
      getDecryptedBuf aead useAD st rest := by
  rw [getDecryptedBuf_complete aead useAD st _ v1 v2 hi lo ct rest hlen hmax,
    if_pos rfl]

/-- Complete non-filler record with the sequence number at the 64-bit maximum:
fatal sequence exhaustion with the record already consumed and the state
untouched. -/
theorem getDecryptedBuf_seqMax (aead : Aead) (useAD : Bool) (st : ReadState)
    (t v1 v2 hi lo : Nat) (ct rest : List Nat)
    (hlen : hi * 256 + lo = ct.length)
    (hmax : ct.length ≤ kMaxEncryptedRecordSize)
    (ht : t ≠ contentTypeChangeCipherSpec)
    (hseq : st.seqNum = uint64Max) :
    getDecryptedBuf aead useAD st (t :: v1 :: v2 :: hi :: lo :: (ct ++ rest)) =
      (.fatal .sequenceExhausted, st, rest) := by
  rw [getDecryptedBuf_complete aead useAD st t v1 v2 hi lo ct rest hlen hmax,
    if_neg ht, if_pos hseq]

/-- Skip-failed-decryption mode, decryption succeeds: the plaintext is
delivered, the sequence number advances by one, and the flag clears. -/
theorem getDecryptedBuf_skip_ok (aead : Aead) (useAD : Bool) (st : ReadState)
    (t v1 v2 hi lo : Nat) (ct rest : List Nat) (pt : List Nat)
    (hlen : hi * 256 + lo = ct.length)
    (hmax : ct.length ≤ kMaxEncryptedRecordSize)
    (ht : t ≠ contentTypeChangeCipherSpec)
    (hseq : st.seqNum ≠ uint64Max)
    (hskip : st.skipFailedDecryption = true)
    (hdec : aead.decrypt ct (mkAad useAD [t, v1, v2, hi, lo]) st.seqNum =
      Option.some pt) :
    getDecryptedBuf aead useAD st (t :: v1 :: v2 :: hi :: lo :: (ct ++ rest)) =
      (.present pt, ⟨st.seqNum + 1, false⟩, rest) := by
  rw [getDecryptedBuf_complete aead useAD st t v1 v2 hi lo ct rest hlen hmax,
    if_neg ht, if_neg hseq, if_pos hskip, hdec]

/-- Skip-failed-decryption mode, decryption fails: the record is discarded and
the loop restarts with the sequence number and the flag unchanged. -/
theorem getDecryptedBuf_skip_fail (aead : Aead) (useAD : Bool) (st : ReadState)
    (t v1 v2 hi lo : Nat) (ct rest : List Nat)
    (hlen : hi * 256 + lo = ct.length)
    (hmax : ct.length ≤ kMaxEncryptedRecordSize)
    (ht : t ≠ contentTypeChangeCipherSpec)
    (hseq : st.seqNum ≠ uint64Max)
    (hskip : st.skipFailedDecryption = true)
    (hdec : aead.decrypt ct (mkAad useAD [t, v1, v2, hi, lo]) st.seqNum =
      Option.none) :
    getDecryptedBuf aead useAD st (t :: v1 :: v2 :: hi :: lo :: (ct ++ rest)) =
      getDecryptedBuf aead useAD st rest := by
  rw [getDecryptedBuf_complete aead useAD st t v1 v2 hi lo ct rest hlen hmax,
    if_neg ht, if_neg hseq, if_pos hskip, hdec]

/-- Normal mode, decryption succeeds: the plaintext is delivered and the
sequence number advances by one. -/
theorem getDecryptedBuf_ok (aead : Aead) (useAD : Bool) (st : ReadState)
    (t v1 v2 hi lo : Nat) (ct rest : List Nat) (pt : List Nat)
    (hlen : hi * 256 + lo = ct.length)
    (hmax : ct.length ≤ kMaxEncryptedRecordSize)
    (ht : t ≠ contentTypeChangeCipherSpec)
    (hseq : st.seqNum ≠ uint64Max)
    (hskip : st.skipFailedDecryption = false)
    (hdec : aead.decrypt ct (mkAad useAD [t, v1, v2, hi, lo]) st.seqNum =
      Option.some pt) :
    getDecryptedBuf aead useAD st (t :: v1 :: v2 :: hi :: lo :: (ct ++ rest)) =
      (.present pt, ⟨st.seqNum + 1, false⟩, rest) := by
  rw [getDecryptedBuf_complete aead useAD st t v1 v2 hi lo ct rest hlen hmax,
    if_neg ht, if_neg hseq, hskip, if_neg Bool.false_ne_true, hdec]

/-- Normal mode, decryption fails: the thrown authentication error, with the
sequence number already post-incremented by the failed `decrypt` call. -/
theorem getDecryptedBuf_fail (aead : Aead) (useAD : Bool) (st : ReadState)
    (t v1 v2 hi lo : Nat) (ct rest : List Nat)
    (hlen : hi * 256 + lo = ct.length)
    (hmax : ct.length ≤ kMaxEncryptedRecordSize)
    (ht : t ≠ contentTypeChangeCipherSpec)
    (hseq : st.seqNum ≠ uint64Max)
    (hskip : st.skipFailedDecryption = false)
    (hdec : aead.decrypt ct (mkAad useAD [t, v1, v2, hi, lo]) st.seqNum =
      Option.none) :
    getDecryptedBuf aead useAD st (t :: v1 :: v2 :: hi :: lo :: (ct ++ rest)) =
      (.fatal .authenticationFailed, ⟨st.seqNum + 1, false⟩, rest) := by
  rw [getDecryptedBuf_complete aead useAD st t v1 v2 hi lo ct rest hlen hmax,
    if_neg ht, if_neg hseq, hskip, if_neg Bool.false_ne_true, hdec]

/-- Stripping padding of a plaintext built as payload, then the type byte,
then zero padding recovers exactly the type and the payload. -/
theorem parseAndRemoveContentType_build (chunk : List Nat) (t p : Nat)
    (ht : t ≠ 0) :
    parseAndRemoveContentType (chunk ++ [t] ++ List.replicate p 0) =
      Option.some (t, chunk) := by
  have hz : ∀ (n : Nat) (l : List Nat),
      (List.replicate n (0:Nat) ++ l).dropWhile (fun b => b == 0) =
        l.dropWhile (fun b => b == 0) := by
    intro n
    induction n with
    | zero => intro l; rfl
    | succ k ih => intro l; exact ih l
  unfold parseAndRemoveContentType
  rw [List.reverse_append, List.reverse_append, List.reverse_replicate]
  rw [hz]
  have hrev : ([t].reverse ++ chunk.reverse).dropWhile (fun b => b == 0) =
      t :: chunk.reverse := by
    have hf : (t == 0) = false := by simpa using ht
    simp [List.dropWhile, hf]
  rw [hrev]
  simp

/-- Reading from an empty accumulator asks for a full header. -/
theorem read_nil (aead : Aead) (useAD : Bool) (st : ReadState) :
    read aead useAD st [] = (.absent kEncryptedHeaderSize, st, []) := rfl

/-- The reader forwards a need-more-bytes outcome of the decryption pipeline. -/
theorem read_of_absent (aead : Aead) (useAD : Bool) (st st' : ReadState)
    (buf buf' : List Nat) (k : Nat)
    (h : getDecryptedBuf aead useAD st buf = (.absent k, st', buf')) :
    read aead useAD st buf = (.absent k, st', buf') := by
  unfold read; rw [h]

/-- The reader forwards a fatal outcome of the decryption pipeline. -/
theorem read_of_fatal (aead : Aead) (useAD : Bool) (st st' : ReadState)
    (buf buf' : List Nat) (e : RecordError)
    (h : getDecryptedBuf aead useAD st buf = (.fatal e, st', buf')) :
    read aead useAD st buf = (.fatal e, st', buf') := by
  unfold read; rw [h]

/-- A decrypted buffer with a valid content type and non-empty payload becomes
a message. -/
theorem read_of_present (aead : Aead) (useAD : Bool) (st st' : ReadState)
    (buf buf' pt frag : List Nat) (ct : Nat)
    (h : getDecryptedBuf aead useAD st buf = (.present pt, st', buf'))
    (hp : parseAndRemoveContentType pt = Option.some (ct, frag))
    (hv : ct = contentTypeHandshake ∨ ct = contentTypeAlert ∨
      ct = contentTypeApplicationData)
    (hne : frag ≠ []) :
    read aead useAD st buf = (.present ⟨ct, frag⟩, st', buf') := by
  unfold read
  rw [h]
  have hemp : frag.isEmpty = false := by
    cases frag with
    | nil => exact absurd rfl hne
    | cons a l => rfl
  simp only [hp, if_pos hv, hemp]
  rfl

/-- A decrypted buffer that reduces to an empty `application_data` payload
becomes a message with an explicit empty fragment. -/
theorem read_of_present_empty_appData (aead : Aead) (useAD : Bool)
    (st st' : ReadState) (buf buf' pt : List Nat)
    (h : getDecryptedBuf aead useAD st buf = (.present pt, st', buf'))
    (hp : parseAndRemoveContentType pt =
      Option.some (contentTypeApplicationData, [])) :
    read aead useAD st buf =
      (.present ⟨contentTypeApplicationData, []⟩, st', buf') := by
  unfold read
  rw [h]
  simp [hp]

/-- A decrypted buffer that reduces to an empty payload of any other permitted
type is a fatal empty-fragment error. -/
theorem read_of_present_empty_other (aead : Aead) (useAD : Bool)
    (st st' : ReadState) (buf buf' pt : List Nat) (ct : Nat)
    (h : getDecryptedBuf aead useAD st buf = (.present pt, st', buf'))
    (hp : parseAndRemoveContentType pt = Option.some (ct, []))
    (hv : ct = contentTypeHandshake ∨ ct = contentTypeAlert)
    (hna : ct ≠ contentTypeApplicationData) :
    read aead useAD st buf = (.fatal .emptyFragment, st', buf') := by
  unfold read
  rw [h]
  have hv' : ct = contentTypeHandshake ∨ ct = contentTypeAlert ∨
      ct = contentTypeApplicationData := by tauto
  simp only [hp, if_pos hv']
  simp [hna]

end ReadLemmas

section WriteLemmas

/-- The header bytes spelled out: the two version bytes of `tls_1_2` are 3, 3. -/
theorem mkHeader_explicit (n : Nat) :
    mkHeader n = 23 :: 3 :: 3 :: (n / 256 % 256) :: (n % 256) :: [] := rfl

/-- Length of the prepared buffer: chunk, type byte, padding. -/
theorem prepareBuffer_length (policy : PaddingPolicy) (msgType : Nat)
    (queue : List Nat) :
    (prepareBufferWithPadding policy msgType queue).length =
      min (policy.chunkLen queue) queue.length + 1 + policy.padLen queue := by
  unfold prepareBufferWithPadding
  simp [List.length_append, List.length_take]
  omega

/-- The record builder written out: header then ciphertext. -/
theorem mkRecord_eq (aead : Aead) (useAD : Bool) (policy : PaddingPolicy)
    (msgType : Nat) (queue : List Nat) (seqNum : Nat) :
    mkRecord aead useAD policy msgType queue seqNum =
      mkHeader ((prepareBufferWithPadding policy msgType queue).length +
        aead.cipherOverhead) ++
      aead.encrypt (prepareBufferWithPadding policy msgType queue)
        (mkAad useAD (mkHeader ((prepareBufferWithPadding policy msgType
          queue).length + aead.cipherOverhead))) seqNum := rfl

/-- The header prepended to a ciphertext, spelled out byte by byte. -/
theorem mkHeader_append (n : Nat) (l : List Nat) :
    mkHeader n ++ l = contentTypeApplicationData :: tls_1_2 / 256 ::
      tls_1_2 % 256 :: (n / 256 % 256) :: (n % 256) :: l := by
  simp [mkHeader, List.cons_append]

/-- Writing an empty queue emits nothing and leaves the sequence number
unchanged, at any fuel. -/
theorem writeLoop_nil (aead : Aead) (useAD : Bool) (policy : PaddingPolicy)
    (msgType fuel seqNum : Nat) :
    writeLoop aead useAD policy msgType fuel seqNum [] = .ok ([], seqNum) := by
  cases fuel <;> rfl

/-- One unfolding of the write loop on a non-empty queue. -/
theorem writeLoop_cons (aead : Aead) (useAD : Bool) (policy : PaddingPolicy)
    (msgType fuel seqNum : Nat) (q₀ : Nat) (q : List Nat) :
    writeLoop aead useAD policy msgType (fuel + 1) seqNum (q₀ :: q) =
      if seqNum = uint64Max then
        .error .sequenceExhausted
      else
        match writeLoop aead useAD policy msgType fuel (seqNum + 1)
            ((q₀ :: q).drop (policy.chunkLen (q₀ :: q))) with
        | .error e => .error e
        | .ok (records, seqNum') =>
          .ok (mkRecord aead useAD policy msgType (q₀ :: q) seqNum :: records,
            seqNum') := rfl

/-- Writing a non-empty queue with the sequence number at the maximum fails
immediately, at any fuel. -/
theorem writeLoop_seqMax (aead : Aead) (useAD : Bool) (policy : PaddingPolicy)
    (msgType fuel : Nat) (q₀ : Nat) (q : List Nat) :
    writeLoop aead useAD policy msgType fuel uint64Max (q₀ :: q) =
      .error (if fuel = 0 then .outOfFuel else .sequenceExhausted) := by
  cases fuel with
  | zero => rfl
  | succ f => rw [writeLoop_cons, if_pos rfl]; rfl

/-- Structure of a successful write-loop run: the final sequence number is the
initial one advanced once per emitted record, and every emitted record is a
`mkRecord` for some queue state and sequence number. -/
theorem writeLoop_ok (aead : Aead) (useAD : Bool) (policy : PaddingPolicy)
    (msgType : Nat) :
    ∀ (fuel seqNum : Nat) (queue : List Nat) (records : List (List Nat))
      (seqNum' : Nat),
      writeLoop aead useAD policy msgType fuel seqNum queue =
        .ok (records, seqNum') →
      seqNum' = seqNum + records.length ∧
      ∀ r ∈ records, ∃ qs sn, r = mkRecord aead useAD policy msgType qs sn := by
  intro fuel
  induction fuel with
  | zero =>
    intro seqNum queue records seqNum' h
    cases queue with
    | nil =>
      rw [writeLoop_nil] at h
      cases h
      exact ⟨by simp, by simp⟩
    | cons q₀ q => exact absurd h (by rw [show writeLoop aead useAD policy
        msgType 0 seqNum (q₀ :: q) = .error .outOfFuel from rfl]; simp)
  | succ fuel ih =>
    intro seqNum queue records seqNum' h
    cases queue with
    | nil =>
      rw [writeLoop_nil] at h
      cases h
      exact ⟨by simp, by simp⟩
    | cons q₀ q =>
      rw [writeLoop_cons] at h
      by_cases hs : seqNum = uint64Max
      · rw [if_pos hs] at h; cases h
      · rw [if_neg hs] at h
        cases hrec : writeLoop aead useAD policy msgType fuel (seqNum + 1)
            ((q₀ :: q).drop (policy.chunkLen (q₀ :: q))) with
        | error e => rw [hrec] at h; cases h
        | ok p =>
          obtain ⟨rs, s'⟩ := p
          rw [hrec] at h
          cases h
          obtain ⟨hseq, hmem⟩ := ih (seqNum + 1) _ rs _ hrec
          constructor
          · simp only [List.length_cons]; omega
          · intro r hr
            rcases List.mem_cons.mp hr with hr | hr
            · exact ⟨q₀ :: q, seqNum, hr⟩
            · exact hmem r hr

/-- One unfolding of the drain loop when a message is delivered. -/
theorem readAllLoop_present (aead : Aead) (useAD : Bool) (fuel : Nat)
    (st st' : ReadState) (buf buf' : List Nat) (m : TLSMessage)
    (h : read aead useAD st buf = (.present m, st', buf')) :
    readAllLoop aead useAD (fuel + 1) st buf =
      (m :: (readAllLoop aead useAD fuel st' buf').1,
        (readAllLoop aead useAD fuel st' buf').2) := by
  rw [readAllLoop, h]

/-- One unfolding of the drain loop when the reader reports a deficit. -/
theorem readAllLoop_absent (aead : Aead) (useAD : Bool) (fuel : Nat)
    (st st' : ReadState) (buf buf' : List Nat) (k : Nat)
    (h : read aead useAD st buf = (.absent k, st', buf')) :
    readAllLoop aead useAD (fuel + 1) st buf = ([], st', buf') := by
  rw [readAllLoop, h]

/-- Draining an empty accumulator yields no message and no state change. -/
theorem readAllLoop_nil (aead : Aead) (useAD : Bool) (fuel : Nat)
    (st : ReadState) :
    readAllLoop aead useAD (fuel + 1) st [] = ([], st, []) := by
  exact readAllLoop_absent aead useAD fuel st st [] [] kEncryptedHeaderSize
    (read_nil aead useAD st)

end WriteLemmas

section RoundTrip

/-- Round-trip workhorse: over an AEAD whose decryption inverts its encryption
and whose ciphertexts grow by exactly the cipher overhead (at most 255), the
write loop under the default no-padding policy succeeds, and draining its
concatenated records through the reader recovers the queue as the
concatenation of the delivered fragments, all carrying the inner type, with
both sequence numbers advanced once per record. -/
theorem writeRead_aux (aead : Aead) (useAD : Bool) (mr : Nat)
    (hmr1 : 1 ≤ mr) (hmr2 : mr ≤ kMaxPlaintextRecordSize)
    (ha : ∀ pt ad sn, aead.decrypt (aead.encrypt pt ad sn) ad sn =
      Option.some pt)
    (hl : ∀ pt ad sn, (aead.encrypt pt ad sn).length =
      pt.length + aead.cipherOverhead)
    (hov : aead.cipherOverhead ≤ 255)
    (t : Nat)
    (ht : t = contentTypeAlert ∨ t = contentTypeHandshake ∨
      t = contentTypeApplicationData) :
    ∀ (n : Nat) (queue : List Nat) (seq fw fr : Nat),
      queue.length = n → queue.length ≤ fw → queue.length + 1 ≤ fr →
      seq + queue.length ≤ uint64Max →
      ∃ (records : List (List Nat)) (msgs : List TLSMessage),
        writeLoop aead useAD (noPaddingPolicy mr) t fw seq queue =
          .ok (records, seq + records.length) ∧
        queue.length ≤ records.flatten.length ∧
        readAllLoop aead useAD fr ⟨seq, false⟩ records.flatten =
          (msgs, ⟨seq + records.length, false⟩, []) ∧
        (msgs.map TLSMessage.fragment).flatten = queue ∧
        msgs.map TLSMessage.type = List.replicate msgs.length t ∧
        msgs.length = records.length := by
  have ht0 : t ≠ 0 := by
    rcases ht with rfl | rfl | rfl <;> decide
  intro n
  induction n using Nat.strong_induction_on with
  | _ n ih =>
    intro queue seq fw fr hn hfw hfr hseq
    cases queue with
    | nil =>
      obtain ⟨fr', rfl⟩ : ∃ fr', fr = fr' + 1 := ⟨fr - 1, by omega⟩
      refine ⟨[], [], ?_, ?_, ?_, rfl, rfl, rfl⟩
      · rw [writeLoop_nil]
        simp
      · simp
      · exact readAllLoop_nil aead useAD fr' ⟨seq, false⟩
    | cons q₀ q =>
      have hql : q.length + 1 = n := by simpa using hn
      obtain ⟨fw', rfl⟩ : ∃ fw', fw = fw' + 1 := ⟨fw - 1, by simp at hfw; omega⟩
      obtain ⟨fr', rfl⟩ : ∃ fr', fr = fr' + 1 := ⟨fr - 1, by simp at hfr; omega⟩
      have hseq' : seq + (q.length + 1) ≤ uint64Max := by simpa using hseq
      have hsne : seq ≠ uint64Max := by omega
      set cl := (noPaddingPolicy mr).chunkLen (q₀ :: q) with hcldef
      have hcl1 : 1 ≤ cl := by
        rw [hcldef]; simp [noPaddingPolicy]; omega
      have hcl2 : cl ≤ q.length + 1 := by
        rw [hcldef]; simp [noPaddingPolicy]
      have hclmr : cl ≤ mr := by
        rw [hcldef]; simp [noPaddingPolicy]
      have hdroplen : ((q₀ :: q).drop cl).length = q.length + 1 - cl := by
        simp
      obtain ⟨rs, ms, hw, hfl, hra, hfrag, htys, hlens⟩ :=
        ih ((q₀ :: q).drop cl).length (by rw [hdroplen]; omega)
          ((q₀ :: q).drop cl) (seq + 1) fw' fr' rfl
          (by rw [hdroplen]; omega) (by rw [hdroplen]; omega)
          (by rw [hdroplen]; omega)
      have hdb_eq : prepareBufferWithPadding (noPaddingPolicy mr) t (q₀ :: q) =
          (q₀ :: q).take cl ++ [t] := by
        unfold prepareBufferWithPadding
        rw [← hcldef]
        simp [noPaddingPolicy]
      have htakelen : ((q₀ :: q).take cl).length = cl := by
        simp [List.length_take]
        omega
      have hdb_len :
          (prepareBufferWithPadding (noPaddingPolicy mr) t (q₀ :: q)).length =
            cl + 1 := by
        rw [hdb_eq]
        simp [htakelen]
      have hclen_le : (prepareBufferWithPadding (noPaddingPolicy mr) t
          (q₀ :: q)).length + aead.cipherOverhead ≤ kMaxEncryptedRecordSize := by
        rw [hdb_len]
        simp only [kMaxEncryptedRecordSize, kMaxPlaintextRecordSize] at hmr2 ⊢
        omega
      have hclen_lt : (prepareBufferWithPadding (noPaddingPolicy mr) t
          (q₀ :: q)).length + aead.cipherOverhead < 65536 := by
        simp only [kMaxEncryptedRecordSize] at hclen_le
        omega
      -- abbreviations for the record pieces
      have hrec_eq : mkRecord aead useAD (noPaddingPolicy mr) t (q₀ :: q) seq =
          mkHeader ((prepareBufferWithPadding (noPaddingPolicy mr) t
            (q₀ :: q)).length + aead.cipherOverhead) ++
          aead.encrypt (prepareBufferWithPadding (noPaddingPolicy mr) t
            (q₀ :: q))
            (mkAad useAD (mkHeader ((prepareBufferWithPadding (noPaddingPolicy
              mr) t (q₀ :: q)).length + aead.cipherOverhead))) seq := rfl
      have hctx_len : (aead.encrypt (prepareBufferWithPadding (noPaddingPolicy
          mr) t (q₀ :: q)) (mkAad useAD (mkHeader ((prepareBufferWithPadding
          (noPaddingPolicy mr) t (q₀ :: q)).length +
          aead.cipherOverhead))) seq).length =
          (prepareBufferWithPadding (noPaddingPolicy mr) t (q₀ :: q)).length +
            aead.cipherOverhead :=
        hl _ _ _
      have hwl : writeLoop aead useAD (noPaddingPolicy mr) t (fw' + 1) seq
          (q₀ :: q) =
          .ok (mkRecord aead useAD (noPaddingPolicy mr) t (q₀ :: q) seq :: rs,
            seq + (rs.length + 1)) := by
        rw [writeLoop_cons, if_neg hsne, ← hcldef, hw]
        have harith : seq + 1 + rs.length = seq + (rs.length + 1) := by omega
        rw [harith]
      have hgdb : getDecryptedBuf aead useAD ⟨seq, false⟩
          ((mkRecord aead useAD (noPaddingPolicy mr) t (q₀ :: q) seq :: rs).flatten) =
          (.present (prepareBufferWithPadding (noPaddingPolicy mr) t (q₀ :: q)),
            ⟨seq + 1, false⟩, rs.flatten) := by
        have hshape : (mkRecord aead useAD (noPaddingPolicy mr) t (q₀ :: q) seq
            :: rs).flatten =
            23 :: 3 :: 3 ::
              (((prepareBufferWithPadding (noPaddingPolicy mr) t
                (q₀ :: q)).length + aead.cipherOverhead) / 256 % 256) ::
              (((prepareBufferWithPadding (noPaddingPolicy mr) t
                (q₀ :: q)).length + aead.cipherOverhead) % 256) ::
              (aead.encrypt (prepareBufferWithPadding (noPaddingPolicy mr) t
                (q₀ :: q)) (mkAad useAD (mkHeader ((prepareBufferWithPadding
                (noPaddingPolicy mr) t (q₀ :: q)).length +
                aead.cipherOverhead))) seq ++ rs.flatten) := by
          rw [List.flatten_cons, hrec_eq, mkHeader_explicit]
          simp
        rw [hshape]
        rw [getDecryptedBuf_ok aead useAD ⟨seq, false⟩ 23 3 3 _ _ _ _
          (prepareBufferWithPadding (noPaddingPolicy mr) t (q₀ :: q))
          (by rw [hctx_len]; exact parseLen_split _ hclen_lt)
          (by rw [hctx_len]; exact hclen_le)
          (by decide)
          hsne
          rfl
          (by rw [show (23 : Nat) :: 3 :: 3 ::
              (((prepareBufferWithPadding (noPaddingPolicy mr) t
                (q₀ :: q)).length + aead.cipherOverhead) / 256 % 256) ::
              (((prepareBufferWithPadding (noPaddingPolicy mr) t
                (q₀ :: q)).length + aead.cipherOverhead) % 256) :: [] =
              mkHeader ((prepareBufferWithPadding (noPaddingPolicy mr) t
                (q₀ :: q)).length + aead.cipherOverhead) from rfl]
              exact ha _ _ _)]
      have hchunk_ne : (q₀ :: q).take cl ≠ [] := by
        intro hnil
        rw [hnil] at htakelen
        simp at htakelen
        omega
      have hread : read aead useAD ⟨seq, false⟩
          ((mkRecord aead useAD (noPaddingPolicy mr) t (q₀ :: q) seq ::
            rs).flatten) =
          (.present ⟨t, (q₀ :: q).take cl⟩, ⟨seq + 1, false⟩, rs.flatten) := by
        refine read_of_present aead useAD ⟨seq, false⟩ ⟨seq + 1, false⟩ _
          rs.flatten _ ((q₀ :: q).take cl) t hgdb ?_ (by tauto) hchunk_ne
        rw [hdb_eq]
        have := parseAndRemoveContentType_build ((q₀ :: q).take cl) t 0 ht0
        simpa using this
      refine ⟨mkRecord aead useAD (noPaddingPolicy mr) t (q₀ :: q) seq :: rs,
        ⟨t, (q₀ :: q).take cl⟩ :: ms, ?_, ?_, ?_, ?_, ?_, ?_⟩
      · rw [hwl]; rfl
      · rw [List.flatten_cons, List.length_append, hrec_eq, List.length_append,
          hctx_len]
        rw [hdroplen] at hfl
        have h5 : (mkHeader ((prepareBufferWithPadding (noPaddingPolicy mr) t
            (q₀ :: q)).length + aead.cipherOverhead)).length = 5 := rfl
        rw [h5, hdb_len]
        simp only [List.length_cons]
        omega
      · rw [readAllLoop_present aead useAD fr' ⟨seq, false⟩ ⟨seq + 1, false⟩ _
          rs.flatten _ hread, hra]
        have harith : seq + 1 + rs.length = seq + (rs.length + 1) := by omega
        rw [harith]
        rfl
      · simp only [List.map_cons, List.flatten_cons, hfrag]
        exact List.take_append_drop cl (q₀ :: q)
      · simp only [List.map_cons, List.length_cons, htys, List.replicate_succ]
      · simp [hlens]

end RoundTrip

section MoreHelpers

/-- State discipline of the decryption pipeline: a delivered plaintext means
the sequence number advanced by exactly one with the skip flag cleared, and a
need-more-bytes outcome leaves the state exactly as it was. -/
theorem getDecryptedBuf_state (aead : Aead) (useAD : Bool) :
    ∀ (n : Nat) (buf : List Nat) (st : ReadState), buf.length ≤ n →
      (∀ pt st' buf',
        getDecryptedBuf aead useAD st buf = (.present pt, st', buf') →
        st' = ⟨st.seqNum + 1, false⟩) ∧
      (∀ k st' buf',
        getDecryptedBuf aead useAD st buf = (.absent k, st', buf') →
        st' = st) := by
  intro n
  induction n using Nat.strong_induction_on with
  | _ n ih =>
    intro buf st hn
    by_cases hshort : buf.length < kEncryptedHeaderSize
    · constructor
      · intro pt st' buf' h
        rw [getDecryptedBuf_short aead useAD st buf hshort] at h
        simp at h
      · intro k st' buf' h
        rw [getDecryptedBuf_short aead useAD st buf hshort] at h
        simp only [Prod.mk.injEq] at h
        exact h.2.1.symm
    · have hbuf : ∃ b0 b1 b2 b3 b4 tl, buf = b0 :: b1 :: b2 :: b3 :: b4 :: tl := by
        rcases buf with _ | ⟨b0, _ | ⟨b1, _ | ⟨b2, _ | ⟨b3, _ | ⟨b4, tl⟩⟩⟩⟩⟩ <;>
          first
            | exact ⟨_, _, _, _, _, _, rfl⟩
            | (exfalso; simp [kEncryptedHeaderSize] at hshort)
      obtain ⟨b0, b1, b2, b3, b4, tl, rfl⟩ := hbuf
      by_cases hov : kMaxEncryptedRecordSize < parseLen (b0 :: b1 :: b2 :: b3 :: b4 :: tl)
      · constructor
        · intro pt st' buf' h
          rw [getDecryptedBuf_oversized aead useAD st _ hshort hov] at h
          simp at h
        · intro k st' buf' h
          rw [getDecryptedBuf_oversized aead useAD st _ hshort hov] at h
          simp at h
      · by_cases hfull : (b0 :: b1 :: b2 :: b3 :: b4 :: tl).length <
            kEncryptedHeaderSize + parseLen (b0 :: b1 :: b2 :: b3 :: b4 :: tl)
        · constructor
          · intro pt st' buf' h
            rw [getDecryptedBuf_incomplete aead useAD st _ hshort hov hfull] at h
            simp at h
          · intro k st' buf' h
            rw [getDecryptedBuf_incomplete aead useAD st _ hshort hov hfull] at h
            simp only [Prod.mk.injEq] at h
            exact h.2.1.symm
        · -- a complete record is available
          have hplen : parseLen (b0 :: b1 :: b2 :: b3 :: b4 :: tl) =
              b3 * 256 + b4 := rfl
          have hlenle : b3 * 256 + b4 ≤ tl.length := by
            rw [hplen] at hfull
            simp only [kEncryptedHeaderSize, List.length_cons] at hfull
            omega
          have hctlen : (tl.take (b3 * 256 + b4)).length = b3 * 256 + b4 := by
            simp only [List.length_take]
            omega
          have hrestlt : (tl.drop (b3 * 256 + b4)).length < n := by
            simp only [List.length_drop]
            simp only [List.length_cons] at hn
            omega
          have hshape : b0 :: b1 :: b2 :: b3 :: b4 :: tl =
              b0 :: b1 :: b2 :: b3 :: b4 ::
                (tl.take (b3 * 256 + b4) ++ tl.drop (b3 * 256 + b4)) := by
            rw [List.take_append_drop]
          have hcomp := getDecryptedBuf_complete aead useAD st b0 b1 b2 b3 b4
            (tl.take (b3 * 256 + b4)) (tl.drop (b3 * 256 + b4))
            hctlen.symm (by rw [hctlen]; rw [hplen] at hov; omega)
          have ihrest := ih (tl.drop (b3 * 256 + b4)).length hrestlt
            (tl.drop (b3 * 256 + b4)) st le_rfl
          constructor
          · intro pt st' buf' h
            rw [hshape, hcomp] at h
            by_cases hccs : b0 = contentTypeChangeCipherSpec
            · rw [if_pos hccs] at h
              exact ihrest.1 _ _ _ h
            · rw [if_neg hccs] at h
              by_cases hsq : st.seqNum = uint64Max
              · rw [if_pos hsq] at h
                simp at h
              · rw [if_neg hsq] at h
                cases hsk : st.skipFailedDecryption with
                | true =>
                  rw [hsk] at h
                  simp only [if_true] at h
                  rcases hdec : aead.decrypt (tl.take (b3 * 256 + b4))
                      (mkAad useAD [b0, b1, b2, b3, b4]) st.seqNum with _ | pt''
                  · rw [hdec] at h
                    exact ihrest.1 _ _ _ h
                  · rw [hdec] at h
                    simp only [Prod.mk.injEq] at h
                    exact h.2.1.symm
                | false =>
                  rw [hsk] at h
                  simp only [Bool.false_eq_true, if_false] at h
                  rcases hdec : aead.decrypt (tl.take (b3 * 256 + b4))
                      (mkAad useAD [b0, b1, b2, b3, b4]) st.seqNum with _ | pt''
                  · rw [hdec] at h
                    simp at h
                  · rw [hdec] at h
                    simp only [Prod.mk.injEq] at h
                    exact h.2.1.symm
          · intro k st' buf' h
            rw [hshape, hcomp] at h
            by_cases hccs : b0 = contentTypeChangeCipherSpec
            · rw [if_pos hccs] at h
              exact ihrest.2 _ _ _ h
            · rw [if_neg hccs] at h
              by_cases hsq : st.seqNum = uint64Max
              · rw [if_pos hsq] at h
                simp at h
              · rw [if_neg hsq] at h
                cases hsk : st.skipFailedDecryption with
                | true =>
                  rw [hsk] at h
                  simp only [if_true] at h
                  rcases hdec : aead.decrypt (tl.take (b3 * 256 + b4))
                      (mkAad useAD [b0, b1, b2, b3, b4]) st.seqNum with _ | pt''
                  · rw [hdec] at h
                    exact ihrest.2 _ _ _ h
                  · rw [hdec] at h
                    simp at h
                | false =>
                  rw [hsk] at h
                  simp only [Bool.false_eq_true, if_false] at h
                  rcases hdec : aead.decrypt (tl.take (b3 * 256 + b4))
                      (mkAad useAD [b0, b1, b2, b3, b4]) st.seqNum with _ | pt''
                  · rw [hdec] at h
                    simp at h
                  · rw [hdec] at h
                    simp at h

/-- The length field written into a header is recovered by the reader's parse
as long as it fits in 16 bits. -/
theorem parseLen_mkHeader_append (c : Nat) (l : List Nat) (h : c < 65536) :
    parseLen (mkHeader c ++ l) = c := by
  rw [mkHeader_explicit]
  show c / 256 % 256 * 256 + c % 256 = c
  exact parseLen_split c h

/-- Length of the prepared buffer under the default no-padding policy. -/
theorem prepareBuffer_noPadding_length (mr t : Nat) (queue : List Nat) :
    (prepareBufferWithPadding (noPaddingPolicy mr) t queue).length =
      min queue.length mr + 1 := by
  unfold prepareBufferWithPadding
  simp [noPaddingPolicy, List.length_take]

/-- The toy AEAD decrypts its own ciphertexts. -/
theorem toyAead_decrypt_encrypt (pt : List Nat) (ad : Option (List Nat))
    (sn : Nat) :
    toyAead.decrypt (toyAead.encrypt pt ad sn) ad sn = Option.some pt := by
  simp [toyAead]

/-- The toy AEAD's ciphertexts carry exactly its cipher overhead. -/
theorem toyAead_length (pt : List Nat) (ad : Option (List Nat)) (sn : Nat) :
    (toyAead.encrypt pt ad sn).length = pt.length + toyAead.cipherOverhead := by
  simp [toyAead]

end MoreHelpers

section Claims

/-- C2 (confirmed): in skip-failed-decryption mode, for an accumulator holding
one complete record whose decryption fails followed by one that decrypts to
`pt` (both complete non-filler records with matching length fields), a single
call to the pipeline returns `pt`, advances the read sequence number by
exactly one (the failed record contributes nothing), and clears the mode
flag; moreover the failed record alone is discarded with the sequence number
unchanged and the flag still set, showing the flag clears only on success. -/
theorem claim_C2_skipMode (aead : Aead) (useAD : Bool)
    (t1 v1 v2 hi1 lo1 t2 w1 w2 hi2 lo2 : Nat) (ct1 ct2 tail : List Nat)
    (pt : List Nat) (seq : Nat)
    (hlen1 : hi1 * 256 + lo1 = ct1.length)
    (hmax1 : ct1.length ≤ kMaxEncryptedRecordSize)
    (hlen2 : hi2 * 256 + lo2 = ct2.length)
    (hmax2 : ct2.length ≤ kMaxEncryptedRecordSize)
    (ht1 : t1 ≠ contentTypeChangeCipherSpec)
    (ht2 : t2 ≠ contentTypeChangeCipherSpec)
    (hseq : seq ≠ uint64Max)
    (hfail : aead.decrypt ct1 (mkAad useAD [t1, v1, v2, hi1, lo1]) seq =
      Option.none)
    (hok : aead.decrypt ct2 (mkAad useAD [t2, w1, w2, hi2, lo2]) seq =
      Option.some pt) :
    getDecryptedBuf aead useAD ⟨seq, true⟩
        (t1 :: v1 :: v2 :: hi1 :: lo1 :: (ct1 ++
          (t2 :: w1 :: w2 :: hi2 :: lo2 :: (ct2 ++ tail)))) =
      (.present pt, ⟨seq + 1, false⟩, tail) ∧
    getDecryptedBuf aead useAD ⟨seq, true⟩
        (t1 :: v1 :: v2 :: hi1 :: lo1 :: (ct1 ++ tail)) =
      getDecryptedBuf aead useAD ⟨seq, true⟩ tail := by
  constructor
  · rw [getDecryptedBuf_skip_fail aead useAD ⟨seq, true⟩ t1 v1 v2 hi1 lo1 ct1 _
      hlen1 hmax1 ht1 hseq rfl hfail]
    exact getDecryptedBuf_skip_ok aead useAD ⟨seq, true⟩ t2 w1 w2 hi2 lo2 ct2
      tail pt hlen2 hmax2 ht2 hseq rfl hok
  · exact getDecryptedBuf_skip_fail aead useAD ⟨seq, true⟩ t1 v1 v2 hi1 lo1 ct1
      tail hlen1 hmax1 ht1 hseq rfl hfail

/-- Witness for C2 at a concrete input: the first record `[23,3,3,0,2,9,9]`
fails toy decryption, the second `[23,3,3,0,3,1,2,7]` decrypts to `[1,2]`. -/
theorem claim_C2_skipMode_witness :
    getDecryptedBuf toyAead false ⟨0, true⟩
        [23, 3, 3, 0, 2, 9, 9, 23, 3, 3, 0, 3, 1, 2, 7] =
      (.present [1, 2], ⟨1, false⟩, []) ∧
    getDecryptedBuf toyAead false ⟨0, true⟩ [23, 3, 3, 0, 2, 9, 9] =
      getDecryptedBuf toyAead false ⟨0, true⟩ [] :=
  claim_C2_skipMode toyAead false 23 3 3 0 2 23 3 3 0 3 [9, 9] [1, 2, 7] []
    [1, 2] 0 (by decide) (by decide) (by decide) (by decide) (by decide)
    (by decide) (by decide) (by decide) (by decide)

/-- C3 (corrected): with the sequence number at the 64-bit maximum, reading a
complete non-filler record fails with `SequenceExhausted` leaving sequence
number and skip flag untouched, but — contrary to the claim — the record's
bytes have already been consumed from the accumulator (`parseEncryptedRecord`
runs before the check); a write call with a non-empty payload fails with
`SequenceExhausted` emitting nothing. -/
theorem claim_C3_sequenceExhaustion (aead : Aead) (useAD : Bool) (skip : Bool)
    (t v1 v2 hi lo : Nat) (ct rest : List Nat)
    (policy : PaddingPolicy) (lvl msgType : Nat) (q₀ : Nat) (q : List Nat)
    (hlen : hi * 256 + lo = ct.length)
    (hmax : ct.length ≤ kMaxEncryptedRecordSize)
    (ht : t ≠ contentTypeChangeCipherSpec) :
    read aead useAD ⟨uint64Max, skip⟩
        (t :: v1 :: v2 :: hi :: lo :: (ct ++ rest)) =
      (.fatal .sequenceExhausted, ⟨uint64Max, skip⟩, rest) ∧
    write aead useAD policy lvl ⟨msgType, q₀ :: q⟩ uint64Max =
      .error .sequenceExhausted := by
  constructor
  · exact read_of_fatal aead useAD ⟨uint64Max, skip⟩ ⟨uint64Max, skip⟩ _ rest
      .sequenceExhausted
      (getDecryptedBuf_seqMax aead useAD ⟨uint64Max, skip⟩ t v1 v2 hi lo ct
        rest hlen hmax ht rfl)
  · show (match writeLoop aead useAD policy msgType (q₀ :: q).length uint64Max
        (q₀ :: q) with
      | .error e => (.error e : Except RecordError (TLSContent × Nat))
      | .ok (records, seqNum') =>
        .ok (⟨records.flatten, msgType, lvl⟩, seqNum')) =
      .error .sequenceExhausted
    rw [writeLoop_seqMax]
    simp

/-- Witness for C3 at a concrete input: one complete record with the read
sequence number at the maximum, and a one-byte write at the maximum. -/
theorem claim_C3_sequenceExhaustion_witness :
    read toyAead false ⟨uint64Max, false⟩ [23, 3, 3, 0, 2, 9, 9] =
      (.fatal .sequenceExhausted, ⟨uint64Max, false⟩, []) ∧
    write toyAead false (noPaddingPolicy 16384) 0 ⟨22, [1]⟩ uint64Max =
      .error .sequenceExhausted :=
  claim_C3_sequenceExhaustion toyAead false false 23 3 3 0 2 [9, 9] []
    (noPaddingPolicy 16384) 0 22 1 [] (by decide) (by decide) (by decide)

/-- Counterexample to C3 as stated: the claim asserts `SequenceExhausted` is
raised "without consuming accumulator bytes", but on the read side the
complete record has been consumed from the accumulator when the error is
raised: the accumulator left behind is `[]`, not the original record. -/
theorem claim_C3_counterexample :
    read toyAead false ⟨uint64Max, false⟩ [23, 3, 3, 0, 1, 9] =
      (.fatal .sequenceExhausted, ⟨uint64Max, false⟩, []) ∧
    ([] : List Nat) ≠ [23, 3, 3, 0, 1, 9] := by
  constructor
  · decide
  · decide

/-- C5 (confirmed): whenever the accumulator's first five bytes declare a
length exceeding `kMaxEncryptedRecordSize`, `read` fails with
`OversizedRecord` for every AEAD (so before any decryption attempt), without
waiting for the rest of the record, and with state and accumulator
untouched. -/
theorem claim_C5_oversized (aead : Aead) (useAD : Bool) (st : ReadState)
    (buf : List Nat)
    (hhdr : kEncryptedHeaderSize ≤ buf.length)
    (hov : kMaxEncryptedRecordSize < parseLen buf) :
    read aead useAD st buf = (.fatal .oversizedRecord, st, buf) :=
  read_of_fatal aead useAD st st buf buf .oversizedRecord
    (getDecryptedBuf_oversized aead useAD st buf (by omega) hov)

/-- Witness for C5 at a concrete input: a header declaring length 65535 with
no ciphertext present at all. -/
theorem claim_C5_oversized_witness :
    read toyAead false ⟨0, false⟩ [23, 3, 3, 255, 255] =
      (.fatal .oversizedRecord, ⟨0, false⟩, [23, 3, 3, 255, 255]) :=
  claim_C5_oversized toyAead false ⟨0, false⟩ [23, 3, 3, 255, 255]
    (by decide) (by decide)

/-- C10 (confirmed): in skip-failed-decryption mode, when the accumulator
holds exactly one complete record and its decryption fails, the call consumes
that record and returns the ordinary need-more-bytes outcome with the 5-byte
header deficit as hint, the flag still set and the sequence number unchanged
— no error outcome distinguishes the authentication failure. -/
theorem claim_C10_skipOnlyRecord (aead : Aead) (useAD : Bool) (seq : Nat)
    (t v1 v2 hi lo : Nat) (ct : List Nat)
    (hlen : hi * 256 + lo = ct.length)
    (hmax : ct.length ≤ kMaxEncryptedRecordSize)
    (ht : t ≠ contentTypeChangeCipherSpec)
    (hseq : seq ≠ uint64Max)
    (hdec : aead.decrypt ct (mkAad useAD [t, v1, v2, hi, lo]) seq =
      Option.none) :
    getDecryptedBuf aead useAD ⟨seq, true⟩ (t :: v1 :: v2 :: hi :: lo :: ct) =
      (.absent kEncryptedHeaderSize, ⟨seq, true⟩, []) := by
  have h := getDecryptedBuf_skip_fail aead useAD ⟨seq, true⟩ t v1 v2 hi lo ct
    [] hlen hmax ht hseq rfl hdec
  rw [List.append_nil] at h
  rw [h]
  rfl

/-- Witness for C10 at a concrete input: the only record fails toy decryption
and the call reports a plain 5-byte deficit with the flag still set. -/
theorem claim_C10_skipOnlyRecord_witness :
    getDecryptedBuf toyAead false ⟨0, true⟩ [23, 3, 3, 0, 2, 9, 9] =
      (.absent kEncryptedHeaderSize, ⟨0, true⟩, []) :=
  claim_C10_skipOnlyRecord toyAead false 0 23 3 3 0 2 [9, 9] (by decide)
    (by decide) (by decide) (by decide) (by decide)

/-- C4 (corrected): the reader's size hints are the exact header deficit when
fewer than five bytes are present and the exact record deficit once the
header is present with a non-oversized declared length, and feeding a record
byte-by-byte eventually yields the same message as feeding it at once, with
the hint non-increasing inside the header phase and inside the body phase;
contrary to the claim the hint is not monotone across the boundary: when the
fifth byte arrives the hint may jump from 1 up to the declared length. -/
theorem claim_C4_sizeHints (aead : Aead) (useAD : Bool) (st : ReadState)
    (bufA bufB : List Nat) (t v1 v2 hi lo n : Nat) (ct : List Nat)
    (hlen : hi * 256 + lo = ct.length)
    (hmax : ct.length ≤ kMaxEncryptedRecordSize) :
    (bufA.length < kEncryptedHeaderSize →
      read aead useAD st bufA =
        (.absent (kEncryptedHeaderSize - bufA.length), st, bufA)) ∧
    (kEncryptedHeaderSize ≤ bufB.length →
      parseLen bufB ≤ kMaxEncryptedRecordSize →
      bufB.length < kEncryptedHeaderSize + parseLen bufB →
      read aead useAD st bufB =
        (.absent (kEncryptedHeaderSize + parseLen bufB - bufB.length), st,
          bufB)) ∧
    (n < kEncryptedHeaderSize →
      read aead useAD st ((t :: v1 :: v2 :: hi :: lo :: ct).take n) =
        (.absent (kEncryptedHeaderSize - n), st,
          (t :: v1 :: v2 :: hi :: lo :: ct).take n)) ∧
    (kEncryptedHeaderSize ≤ n → n < kEncryptedHeaderSize + ct.length →
      read aead useAD st ((t :: v1 :: v2 :: hi :: lo :: ct).take n) =
        (.absent (kEncryptedHeaderSize + ct.length - n), st,
          (t :: v1 :: v2 :: hi :: lo :: ct).take n)) ∧
    (n + 1 < kEncryptedHeaderSize ∨
        (kEncryptedHeaderSize ≤ n ∧ n + 1 < kEncryptedHeaderSize + ct.length) →
      sizeHintOf (read aead useAD st
          ((t :: v1 :: v2 :: hi :: lo :: ct).take (n + 1))) ≤
        sizeHintOf (read aead useAD st
          ((t :: v1 :: v2 :: hi :: lo :: ct).take n))) ∧
    read aead useAD st
        ((t :: v1 :: v2 :: hi :: lo :: ct).take
          (kEncryptedHeaderSize + ct.length)) =
      read aead useAD st (t :: v1 :: v2 :: hi :: lo :: ct) := by
  have hwlen : (t :: v1 :: v2 :: hi :: lo :: ct).length =
      kEncryptedHeaderSize + ct.length := by
    simp [kEncryptedHeaderSize]
    omega
  have hA : ∀ (buf : List Nat), buf.length < kEncryptedHeaderSize →
      read aead useAD st buf =
        (.absent (kEncryptedHeaderSize - buf.length), st, buf) := by
    intro buf hb
    exact read_of_absent aead useAD st st buf buf _
      (getDecryptedBuf_short aead useAD st buf hb)
  have hB : ∀ (buf : List Nat), kEncryptedHeaderSize ≤ buf.length →
      parseLen buf ≤ kMaxEncryptedRecordSize →
      buf.length < kEncryptedHeaderSize + parseLen buf →
      read aead useAD st buf =
        (.absent (kEncryptedHeaderSize + parseLen buf - buf.length), st,
          buf) := by
    intro buf h1 h2 h3
    exact read_of_absent aead useAD st st buf buf _
      (getDecryptedBuf_incomplete aead useAD st buf (by omega) (by omega) h3)
  have hC1 : ∀ (m : Nat), m < kEncryptedHeaderSize →
      read aead useAD st ((t :: v1 :: v2 :: hi :: lo :: ct).take m) =
        (.absent (kEncryptedHeaderSize - m), st,
          (t :: v1 :: v2 :: hi :: lo :: ct).take m) := by
    intro m hm
    have hmlen : ((t :: v1 :: v2 :: hi :: lo :: ct).take m).length = m := by
      simp only [List.length_take, hwlen]
      simp only [kEncryptedHeaderSize] at hm ⊢
      omega
    have := hA ((t :: v1 :: v2 :: hi :: lo :: ct).take m) (by rw [hmlen]; exact hm)
    rw [hmlen] at this
    exact this
  have hC2 : ∀ (m : Nat), kEncryptedHeaderSize ≤ m →
      m < kEncryptedHeaderSize + ct.length →
      read aead useAD st ((t :: v1 :: v2 :: hi :: lo :: ct).take m) =
        (.absent (kEncryptedHeaderSize + ct.length - m), st,
          (t :: v1 :: v2 :: hi :: lo :: ct).take m) := by
    intro m hm1 hm2
    obtain ⟨m', rfl⟩ : ∃ m', m = m' + 5 :=
      ⟨m - 5, by simp only [kEncryptedHeaderSize] at hm1; omega⟩
    have hshape : (t :: v1 :: v2 :: hi :: lo :: ct).take (m' + 5) =
        t :: v1 :: v2 :: hi :: lo :: ct.take m' := rfl
    have hm'lt : m' < ct.length := by
      simp only [kEncryptedHeaderSize] at hm2
      omega
    have hp : parseLen (t :: v1 :: v2 :: hi :: lo :: ct.take m') =
        ct.length := hlen
    have hml : (t :: v1 :: v2 :: hi :: lo :: ct.take m').length =
        5 + m' := by
      simp only [List.length_cons, List.length_take]
      omega
    have := hB (t :: v1 :: v2 :: hi :: lo :: ct.take m')
      (by rw [hml]; simp only [kEncryptedHeaderSize]; omega)
      (by rw [hp]; exact hmax)
      (by rw [hml, hp]; simp only [kEncryptedHeaderSize]; omega)
    rw [hp, hml] at this
    rw [hshape]
    have harith : kEncryptedHeaderSize + ct.length - (5 + m') =
        kEncryptedHeaderSize + ct.length - (m' + 5) := by omega
    rw [harith] at this
    exact this
  refine ⟨hA bufA, hB bufB, hC1 n, hC2 n, ?_, ?_⟩
  · rintro (hlt | ⟨hge, hlt⟩)
    · rw [hC1 (n + 1) hlt, hC1 n (by omega)]
      simp only [sizeHintOf]
      omega
    · rw [hC2 (n + 1) (by omega) hlt, hC2 n hge (by omega)]
      simp only [sizeHintOf]
      omega
  · rw [show (t :: v1 :: v2 :: hi :: lo :: ct).take
        (kEncryptedHeaderSize + ct.length) = t :: v1 :: v2 :: hi :: lo :: ct
      from by rw [← hwlen, List.take_length]]

/-- Witness for C4 at a concrete input: the record `[23,3,3,0,3,1,2,7]`
truncated at various lengths, plus a short and an incomplete accumulator. -/
theorem claim_C4_sizeHints_witness :
    read toyAead false ⟨0, false⟩ [23, 3] =
      (.absent 3, ⟨0, false⟩, [23, 3]) ∧
    read toyAead false ⟨0, false⟩ [23, 3, 3, 0, 9] =
      (.absent 9, ⟨0, false⟩, [23, 3, 3, 0, 9]) ∧
    read toyAead false ⟨0, false⟩ ([23, 3, 3, 0, 3, 1, 2, 7].take 6) =
      (.absent 2, ⟨0, false⟩, [23, 3, 3, 0, 3, 1]) ∧
    sizeHintOf (read toyAead false ⟨0, false⟩
        ([23, 3, 3, 0, 3, 1, 2, 7].take 7)) ≤
      sizeHintOf (read toyAead false ⟨0, false⟩
        ([23, 3, 3, 0, 3, 1, 2, 7].take 6)) ∧
    read toyAead false ⟨0, false⟩ ([23, 3, 3, 0, 3, 1, 2, 7].take 8) =
      read toyAead false ⟨0, false⟩ [23, 3, 3, 0, 3, 1, 2, 7] := by
  have h := claim_C4_sizeHints toyAead false ⟨0, false⟩ [23, 3]
    [23, 3, 3, 0, 9] 23 3 3 0 3 6 [1, 2, 7] (by decide) (by decide)
  exact ⟨h.1 (by decide), h.2.1 (by decide) (by decide) (by decide),
    h.2.2.2.1 (by decide) (by decide), h.2.2.2.2.1 (by decide),
    h.2.2.2.2.2⟩

/-- Counterexample to C4 as stated: feeding one more byte can increase the
need-more-bytes hint — with four bytes present the hint is 1, and once the
fifth header byte arrives (declared length 2) the hint becomes 2, so the
hints are not monotonically non-increasing as bytes accumulate. -/
theorem claim_C4_counterexample :
    read toyAead false ⟨0, false⟩ [23, 3, 3, 0] =
      (.absent 1, ⟨0, false⟩, [23, 3, 3, 0]) ∧
    read toyAead false ⟨0, false⟩ [23, 3, 3, 0, 2] =
      (.absent 2, ⟨0, false⟩, [23, 3, 3, 0, 2]) ∧
    ¬ sizeHintOf (read toyAead false ⟨0, false⟩ [23, 3, 3, 0, 2]) ≤
        sizeHintOf (read toyAead false ⟨0, false⟩ [23, 3, 3, 0]) := by
  refine ⟨by decide, by decide, by decide⟩

/-- C6 (confirmed): a read call that delivers a plaintext advances the read
sequence number by exactly one (and clears the skip flag), a read call that
reports a deficit leaves the state exactly as it was (filler records and
skip-failed discards included), and a successful write run advances the write
sequence number by exactly one per emitted record. -/
theorem claim_C6_seqIncrement (aead : Aead) (useAD : Bool) (st : ReadState)
    (bufA bufA' bufB bufB' : List Nat) (pt : List Nat) (k : Nat)
    (stA stB : ReadState) (policy : PaddingPolicy) (msgType fuel seq : Nat)
    (queue : List Nat) (records : List (List Nat)) (seq' : Nat) :
    (getDecryptedBuf aead useAD st bufA = (.present pt, stA, bufA') →
      stA = ⟨st.seqNum + 1, false⟩) ∧
    (getDecryptedBuf aead useAD st bufB = (.absent k, stB, bufB') →
      stB = st) ∧
    (writeLoop aead useAD policy msgType fuel seq queue = .ok (records, seq') →
      seq' = seq + records.length) := by
  refine ⟨?_, ?_, ?_⟩
  · intro h
    exact (getDecryptedBuf_state aead useAD bufA.length bufA st le_rfl).1
      _ _ _ h
  · intro h
    exact (getDecryptedBuf_state aead useAD bufB.length bufB st le_rfl).2
      _ _ _ h
  · intro h
    exact (writeLoop_ok aead useAD policy msgType fuel seq queue records
      seq' h).1

/-- Witness for C6 at concrete inputs: a successful decryption advances the
read sequence number from 4 to 5, a deficit leaves it at 4, and a two-record
write advances the write sequence number from 7 to 9. -/
theorem claim_C6_seqIncrement_witness :
    getDecryptedBuf toyAead false ⟨4, false⟩ [23, 3, 3, 0, 3, 1, 2, 7] =
      (.present [1, 2], ⟨5, false⟩, []) ∧
    (⟨5, false⟩ : ReadState) = ⟨4 + 1, false⟩ ∧
    getDecryptedBuf toyAead false ⟨4, false⟩ [23, 3] =
      (.absent 3, ⟨4, false⟩, [23, 3]) ∧
    (⟨4, false⟩ : ReadState) = ⟨4, false⟩ ∧
    writeLoop toyAead false (noPaddingPolicy 2) 22 3 7 [1, 2, 3] =
      .ok ([[23, 3, 3, 0, 4, 1, 2, 22, 7], [23, 3, 3, 0, 3, 3, 22, 7]], 9) ∧
    (9 : Nat) = 7 +
      [[23, 3, 3, 0, 4, 1, 2, 22, 7], [23, 3, 3, 0, 3, 3, 22, 7]].length := by
  have h := claim_C6_seqIncrement toyAead false ⟨4, false⟩
    [23, 3, 3, 0, 3, 1, 2, 7] [] [23, 3] [23, 3] [1, 2] 3 ⟨5, false⟩
    ⟨4, false⟩ (noPaddingPolicy 2) 22 3 7 [1, 2, 3]
    [[23, 3, 3, 0, 4, 1, 2, 22, 7], [23, 3, 3, 0, 3, 3, 22, 7]] 9
  exact ⟨by decide, h.1 (by decide), by decide, h.2.1 (by decide), rfl,
    h.2.2 rfl⟩

/-- C7 (corrected): every record emitted by a successful write run begins with
the `application_data` tag (masking the true inner type), the emitted records
are concatenated in emission order, and the last two header bytes are the
big-endian 16-bit length equal to the prepared plaintext chunk's length plus
the cipher overhead; contrary to the claim the TLS 1.2 version tag 0x0303 is
a two-byte quantity occupying the second AND third header bytes — no single
"second byte" carries it. -/
theorem claim_C7_headerFormat (aead : Aead) (useAD : Bool)
    (policy : PaddingPolicy) (lvl : Nat) (msg : TLSMessage) (seq seqW : Nat)
    (records : List (List Nat)) (r : List Nat)
    (hwl : writeLoop aead useAD policy msg.type msg.fragment.length seq
      msg.fragment = .ok (records, seqW))
    (hr : r ∈ records) :
    write aead useAD policy lvl msg seq =
      .ok (⟨records.flatten, msg.type, lvl⟩, seqW) ∧
    r.getD 0 0 = contentTypeApplicationData ∧
    r.getD 1 0 = tls_1_2 / 256 ∧
    r.getD 2 0 = tls_1_2 % 256 ∧
    ∃ dataBuf sn,
      r = mkHeader (dataBuf.length + aead.cipherOverhead) ++
        aead.encrypt dataBuf
          (mkAad useAD (mkHeader (dataBuf.length + aead.cipherOverhead))) sn ∧
      (dataBuf.length + aead.cipherOverhead < 65536 →
        parseLen r = dataBuf.length + aead.cipherOverhead) := by
  constructor
  · unfold write
    rw [hwl]
  · obtain ⟨qs, sn, rfl⟩ := (writeLoop_ok aead useAD policy msg.type
      msg.fragment.length seq msg.fragment records seqW hwl).2 r hr
    refine ⟨?_, ?_, ?_,
      prepareBufferWithPadding policy msg.type qs, sn, mkRecord_eq aead useAD
        policy msg.type qs sn, fun hlt => parseLen_mkHeader_append _ _ hlt⟩
    · rw [mkRecord_eq, mkHeader_append, List.getD_cons_zero]
    · rw [mkRecord_eq, mkHeader_append,
        show (1 : Nat) = 0 + 1 from rfl, List.getD_cons_succ,
        List.getD_cons_zero]
    · rw [mkRecord_eq, mkHeader_append,
        show (2 : Nat) = (0 + 1) + 1 from rfl, List.getD_cons_succ,
        List.getD_cons_succ, List.getD_cons_zero]

/-- Witness for C7 at a concrete input: a one-record write of a one-byte
handshake payload. -/
theorem claim_C7_headerFormat_witness :
    write toyAead false (noPaddingPolicy 16384) 5 ⟨22, [1]⟩ 0 =
      .ok (⟨[23, 3, 3, 0, 3, 1, 22, 7], 22, 5⟩, 1) ∧
    [23, 3, 3, 0, 3, 1, 22, 7].getD 0 0 = contentTypeApplicationData ∧
    [23, 3, 3, 0, 3, 1, 22, 7].getD 1 0 = tls_1_2 / 256 ∧
    [23, 3, 3, 0, 3, 1, 22, 7].getD 2 0 = tls_1_2 % 256 := by
  have h := claim_C7_headerFormat toyAead false (noPaddingPolicy 16384) 5
    ⟨22, [1]⟩ 0 1 [[23, 3, 3, 0, 3, 1, 22, 7]] [23, 3, 3, 0, 3, 1, 22, 7]
    rfl (by decide)
  exact ⟨h.1, h.2.1, h.2.2.1, h.2.2.2.1⟩

/-- Counterexample to C7 as stated: the second byte of an emitted record is 3,
which is not the TLS 1.2 version tag (0x0303 = 771); the version occupies the
second and third bytes together. -/
theorem claim_C7_counterexample :
    write toyAead false (noPaddingPolicy 16384) 5 ⟨22, [2]⟩ 0 =
      .ok (⟨[23, 3, 3, 0, 3, 2, 22, 7], 22, 5⟩, 1) ∧
    [23, 3, 3, 0, 3, 2, 22, 7].getD 1 0 = 3 ∧
    [23, 3, 3, 0, 3, 2, 22, 7].getD 2 0 = 3 ∧
    tls_1_2 = 771 ∧
    [23, 3, 3, 0, 3, 2, 22, 7].getD 1 0 ≠ tls_1_2 := by
  refine ⟨rfl, by decide, by decide, by decide, by decide⟩

/-- C8 (corrected): a write of an empty payload emits no wire bytes, leaves
the write sequence number unchanged, and returns a valid result carrying the
original content type and encryption level; reading an accumulator whose next
record decrypts to an empty `application_data` payload yields a message with
an explicit empty fragment, while an empty handshake or alert payload is a
fatal `EmptyFragment` error; but — contrary to the claim — writing an empty
`application_data` message and reading the result back yields no message at
all (the reader reports a deficit), not the original message. -/
theorem claim_C8_emptyPayload (aead : Aead) (useAD : Bool)
    (policy : PaddingPolicy) (lvl t seq : Nat) (st stB stC : ReadState)
    (bufB bufB' bufC bufC' ptB ptC : List Nat) (ctC : Nat)
    (hb : getDecryptedBuf aead useAD st bufB = (.present ptB, stB, bufB'))
    (hpB : parseAndRemoveContentType ptB =
      Option.some (contentTypeApplicationData, []))
    (hc : getDecryptedBuf aead useAD st bufC = (.present ptC, stC, bufC'))
    (hpC : parseAndRemoveContentType ptC = Option.some (ctC, []))
    (hvC : ctC = contentTypeHandshake ∨ ctC = contentTypeAlert) :
    write aead useAD policy lvl ⟨t, []⟩ seq = .ok (⟨[], t, lvl⟩, seq) ∧
    readAll aead useAD st ([] : List Nat) = ([], st, []) ∧
    read aead useAD st bufB =
      (.present ⟨contentTypeApplicationData, []⟩, stB, bufB') ∧
    read aead useAD st bufC = (.fatal .emptyFragment, stC, bufC') := by
  refine ⟨rfl, rfl, ?_, ?_⟩
  · exact read_of_present_empty_appData aead useAD st stB bufB bufB' ptB hb hpB
  · refine read_of_present_empty_other aead useAD st stC bufC bufC' ptC ctC hc
      hpC hvC ?_
    rcases hvC with rfl | rfl <;> decide

/-- Witness for C8 at concrete inputs: an empty alert write, an empty
accumulator, a record decrypting to an empty `application_data` payload, and
a record decrypting to an empty handshake payload. -/
theorem claim_C8_emptyPayload_witness :
    write toyAead false (noPaddingPolicy 16384) 9 ⟨21, []⟩ 3 =
      .ok (⟨[], 21, 9⟩, 3) ∧
    readAll toyAead false ⟨0, false⟩ ([] : List Nat) =
      ([], ⟨0, false⟩, []) ∧
    read toyAead false ⟨0, false⟩ [23, 3, 3, 0, 2, 23, 7] =
      (.present ⟨contentTypeApplicationData, []⟩, ⟨1, false⟩, []) ∧
    read toyAead false ⟨0, false⟩ [23, 3, 3, 0, 2, 22, 7] =
      (.fatal .emptyFragment, ⟨1, false⟩, []) := by
  have h := claim_C8_emptyPayload toyAead false (noPaddingPolicy 16384) 9 21 3
    ⟨0, false⟩ ⟨1, false⟩ ⟨1, false⟩ [23, 3, 3, 0, 2, 23, 7] []
    [23, 3, 3, 0, 2, 22, 7] [] [23] [22] 22 (by decide) (by decide)
    (by decide) (by decide) (by decide)
  exact h

/-- Counterexample to C8 as stated: an `application_data` message with empty
payload does not round-trip — the writer emits no bytes and the reader then
yields no message (a deficit of a full header), so no read outcome carries
the original message back. -/
theorem claim_C8_counterexample :
    write toyAead false (noPaddingPolicy 16384) 2
        ⟨contentTypeApplicationData, []⟩ 5 =
      .ok (⟨[], contentTypeApplicationData, 2⟩, 5) ∧
    readAll toyAead false ⟨5, false⟩ ([] : List Nat) =
      ([], ⟨5, false⟩, []) ∧
    ([] : List TLSMessage) ≠ [⟨contentTypeApplicationData, []⟩] := by
  refine ⟨rfl, by decide, by decide⟩

/-- C9 (corrected): under the default no-padding policy with a plaintext
chunk bound of at most 2^14 and a cipher overhead of at most 255, every
emitted record's 16-bit length field stays within
`kMaxEncryptedRecordSize`; contrary to the claim this does not hold over
every padding-policy output — the writer performs no check of its own, and a
policy requesting enough padding produces a length field beyond the
maximum. -/
theorem claim_C9_lengthBound (aead : Aead) (useAD : Bool) (mr : Nat)
    (msgType fuel seq : Nat) (queue : List Nat) (records : List (List Nat))
    (seqW : Nat) (r : List Nat)
    (hmr : mr ≤ kMaxPlaintextRecordSize)
    (hl : ∀ pt ad sn, (aead.encrypt pt ad sn).length =
      pt.length + aead.cipherOverhead)
    (hov : aead.cipherOverhead ≤ 255)
    (hwl : writeLoop aead useAD (noPaddingPolicy mr) msgType fuel seq queue =
      .ok (records, seqW))
    (hr : r ∈ records) :
    parseLen r ≤ kMaxEncryptedRecordSize := by
  obtain ⟨qs, sn, rfl⟩ := (writeLoop_ok aead useAD (noPaddingPolicy mr)
    msgType fuel seq queue records seqW hwl).2 r hr
  have hplen := prepareBuffer_noPadding_length mr msgType qs
  have hctx : (aead.encrypt (prepareBufferWithPadding (noPaddingPolicy mr)
      msgType qs) (mkAad useAD (mkHeader ((prepareBufferWithPadding
      (noPaddingPolicy mr) msgType qs).length + aead.cipherOverhead)))
      sn).length = (prepareBufferWithPadding (noPaddingPolicy mr) msgType
      qs).length + aead.cipherOverhead := hl _ _ _
  have hfit : (prepareBufferWithPadding (noPaddingPolicy mr) msgType
      qs).length + aead.cipherOverhead < 65536 := by
    rw [hplen]
    simp only [kMaxPlaintextRecordSize] at hmr
    omega
  have hfield : parseLen (mkRecord aead useAD (noPaddingPolicy mr) msgType qs
      sn) = (prepareBufferWithPadding (noPaddingPolicy mr) msgType qs).length +
      aead.cipherOverhead := parseLen_mkHeader_append _ _ hfit
  rw [hfield, hplen]
  simp only [kMaxEncryptedRecordSize, kMaxPlaintextRecordSize] at hmr ⊢
  omega

/-- Witness for C9 at a concrete input: the first record of a two-record
write under chunk bound 2 has length field 4 ≤ 16640. -/
theorem claim_C9_lengthBound_witness :
    parseLen [23, 3, 3, 0, 4, 1, 2, 22, 7] ≤ kMaxEncryptedRecordSize :=
  claim_C9_lengthBound toyAead false 2 22 3 7 [1, 2, 3]
    [[23, 3, 3, 0, 4, 1, 2, 22, 7], [23, 3, 3, 0, 3, 3, 22, 7]] 9
    [23, 3, 3, 0, 4, 1, 2, 22, 7] (by decide) toyAead_length (by decide)
    rfl (by decide)

/-- Counterexample to C9 as stated: under a policy that requests 16640
padding bytes the writer emits a record whose length field is 16643,
exceeding `kMaxEncryptedRecordSize` — the writer enforces nothing over
arbitrary padding-policy outputs. -/
theorem claim_C9_counterexample :
    recordLenFields (writeLoop toyAead false hugePaddingPolicy 23 1 0 [1]) =
      [16643] ∧
    ¬ (16643 ≤ kMaxEncryptedRecordSize) := by
  have h1 : writeLoop toyAead false hugePaddingPolicy 23 1 0 [1] =
      .ok ([mkRecord toyAead false hugePaddingPolicy 23 [1] 0], 1) := by
    rw [writeLoop_cons, if_neg (by decide : ¬ (0 : Nat) = uint64Max),
      show ([1] : List Nat).drop (hugePaddingPolicy.chunkLen [1]) = []
        from rfl, writeLoop_nil]
  have hfit : (prepareBufferWithPadding hugePaddingPolicy 23 [1]).length +
      toyAead.cipherOverhead = 16643 := by
    rw [prepareBuffer_length]
    decide
  have h2 : parseLen (mkRecord toyAead false hugePaddingPolicy 23 [1] 0) =
      16643 := by
    rw [mkRecord_eq, hfit]
    exact parseLen_mkHeader_append 16643 _ (by omega)
  constructor
  · show (match writeLoop toyAead false hugePaddingPolicy 23 1 0 [1] with
      | .error _ => ([] : List Nat)
      | .ok (records, _) => records.map parseLen) = [16643]
    simp only [h1]
    show [parseLen (mkRecord toyAead false hugePaddingPolicy 23 [1] 0)] =
      [16643]
    rw [h2]
  · decide

/-- C1 (corrected): for every message with a non-empty payload and a
permitted content type, writing under the default no-padding policy with a
matching AEAD (decryption inverts encryption, ciphertexts grow by the cipher
overhead, overhead at most 255) and then draining the produced wire bytes
through the reader with matching sequence number yields the message back:
the delivered fragments concatenate to the payload, every delivered message
carries the inner type, the read state ends at the writer's final sequence
number with nothing left over — this covers single-chunk, exactly-max-chunk
and multi-chunk payloads; contrary to the claim it fails for the empty
payload, where the writer emits nothing and the reader yields no message. -/
theorem claim_C1_roundTrip (aead : Aead) (useAD : Bool) (mr lvl : Nat)
    (msg : TLSMessage) (seq : Nat)
    (hmr1 : 1 ≤ mr) (hmr2 : mr ≤ kMaxPlaintextRecordSize)
    (ha : ∀ pt ad sn, aead.decrypt (aead.encrypt pt ad sn) ad sn =
      Option.some pt)
    (hl : ∀ pt ad sn, (aead.encrypt pt ad sn).length =
      pt.length + aead.cipherOverhead)
    (hov : aead.cipherOverhead ≤ 255)
    (ht : msg.type = contentTypeAlert ∨ msg.type = contentTypeHandshake ∨
      msg.type = contentTypeApplicationData)
    (hne : msg.fragment ≠ [])
    (hseq : seq + msg.fragment.length ≤ uint64Max) :
    match write aead useAD (noPaddingPolicy mr) lvl msg seq with
    | .error _ => False
    | .ok (content, seqW) =>
      content.contentType = msg.type ∧
      content.encryptionLevel = lvl ∧
      ((readAll aead useAD ⟨seq, false⟩ content.data).1.map
        TLSMessage.fragment).flatten = msg.fragment ∧
      (readAll aead useAD ⟨seq, false⟩ content.data).1.map TLSMessage.type =
        List.replicate
          (readAll aead useAD ⟨seq, false⟩ content.data).1.length msg.type ∧
      (readAll aead useAD ⟨seq, false⟩ content.data).2 = (⟨seqW, false⟩, []) ∧
      (readAll aead useAD ⟨seq, false⟩ content.data).1 ≠ [] := by
  obtain ⟨records₀, msgs₀, hw₀, hfl₀, _, _, _, _⟩ :=
    writeRead_aux aead useAD mr hmr1 hmr2 ha hl hov msg.type ht
      msg.fragment.length msg.fragment seq msg.fragment.length
      (msg.fragment.length + 1) rfl le_rfl le_rfl hseq
  obtain ⟨records, msgs, hw, hfl, hra, hfrag, htys, hlens⟩ :=
    writeRead_aux aead useAD mr hmr1 hmr2 ha hl hov msg.type ht
      msg.fragment.length msg.fragment seq msg.fragment.length
      (records₀.flatten.length + 1) rfl le_rfl (by omega) hseq
  have hrec : records = records₀ := by
    rw [hw₀] at hw
    simp only [Except.ok.injEq, Prod.mk.injEq] at hw
    exact hw.1.symm
  subst hrec
  have hwrite : write aead useAD (noPaddingPolicy mr) lvl msg seq =
      .ok (⟨records.flatten, msg.type, lvl⟩, seq + records.length) := by
    unfold write
    rw [hw₀]
  rw [hwrite]
  have hra' : readAll aead useAD ⟨seq, false⟩ records.flatten =
      (msgs, ⟨seq + records.length, false⟩, []) := hra
  refine ⟨rfl, rfl, ?_, ?_, ?_, ?_⟩
  · show ((readAll aead useAD ⟨seq, false⟩ records.flatten).1.map
      TLSMessage.fragment).flatten = msg.fragment
    rw [hra']
    exact hfrag
  · show (readAll aead useAD ⟨seq, false⟩ records.flatten).1.map
      TLSMessage.type = List.replicate
        (readAll aead useAD ⟨seq, false⟩ records.flatten).1.length msg.type
    rw [hra']
    exact htys
  · show (readAll aead useAD ⟨seq, false⟩ records.flatten).2 =
      (⟨seq + records.length, false⟩, [])
    rw [hra']
  · show (readAll aead useAD ⟨seq, false⟩ records.flatten).1 ≠ []
    rw [hra']
    show msgs ≠ []
    intro hnil
    rw [hnil] at hfrag
    simp at hfrag
    exact hne hfrag

/-- Witness for C1 at a concrete input: a three-byte handshake payload under
chunk bound 2 (so one exactly-max chunk and one remainder chunk), written at
sequence number 10 and drained back. -/
theorem claim_C1_roundTrip_witness :
    match write toyAead true (noPaddingPolicy 2) 7 ⟨22, [1, 2, 3]⟩ 10 with
    | .error _ => False
    | .ok (content, seqW) =>
      content.contentType = (⟨22, [1, 2, 3]⟩ : TLSMessage).type ∧
      content.encryptionLevel = 7 ∧
      ((readAll toyAead true ⟨10, false⟩ content.data).1.map
        TLSMessage.fragment).flatten = (⟨22, [1, 2, 3]⟩ : TLSMessage).fragment ∧
      (readAll toyAead true ⟨10, false⟩ content.data).1.map TLSMessage.type =
        List.replicate
          (readAll toyAead true ⟨10, false⟩ content.data).1.length
          (⟨22, [1, 2, 3]⟩ : TLSMessage).type ∧
      (readAll toyAead true ⟨10, false⟩ content.data).2 =
        (⟨seqW, false⟩, []) ∧
      (readAll toyAead true ⟨10, false⟩ content.data).1 ≠ [] :=
  claim_C1_roundTrip toyAead true 2 7 ⟨22, [1, 2, 3]⟩ 10 (by decide)
    (by decide) toyAead_decrypt_encrypt toyAead_length (by decide) (by decide)
    (by decide) (by decide)

/-- Counterexample to C1 as stated: the empty `application_data` payload does
not round-trip — the writer emits no wire bytes and draining them yields no
message, so the original message is not recovered. -/
theorem claim_C1_counterexample :
    write toyAead true (noPaddingPolicy kMaxPlaintextRecordSize) 0
        ⟨contentTypeApplicationData, []⟩ 0 =
      .ok (⟨[], contentTypeApplicationData, 0⟩, 0) ∧
    readAll toyAead true ⟨0, false⟩ ([] : List Nat) = ([], ⟨0, false⟩, []) ∧
    ([] : List TLSMessage) ≠ [⟨contentTypeApplicationData, []⟩] := by
  refine ⟨rfl, by decide, by decide⟩

end Claims




end Fizz
